import Mathlib

/-!
Shallow embedding of the modu-core configuration and process-lifecycle
components, together with proofs about the behaviour of the embedded code.

The embedding covers:
* the TOML document model shared by both configuration libraries
  (`Toml`, association-list tables);
* `comm::Config` (the singleton TOML configuration service in
  `comm_config_toml.cpp`): `MergeToml`, `Initialize`, `Load`, `Reload`,
  `InferValueType`, `SetOverride` and the lookup skeleton of `Get<T>`;
* `comm::Config` (the standalone key/value object in `comm_config.cpp`):
  `merge_from_file`'s `merge_tables`, `load_xdg_hierarchy`,
  `navigate_to_node`, `create_nested_table` and `set_string`;
* `comm::Terminate::WaitForTerminateSignal` and `GetSignalName`
  (`comm_terminate.cpp`);
* `drv::Semaphore` and `drv::FindAvailablePort` (`comm_os`).

File-system access, environment variables and the TOML parser are modelled
as oracles (`FileRead`-valued functions from path strings); C++ `int` and
`int64_t` are modelled as `Int` with explicit range checks where the source
checks them; C++ `double` values are carried as exact rationals (IEEE-754
rounding and the out-of-range exceptions of `std::stod` at the extremes of
`double` are not modelled — no claim depends on a value near those limits).
-/

/-- A C++ `double` value as produced by `std::stod`: an exactly represented
finite rational, an infinity, or a NaN.  IEEE-754 rounding and the
`std::out_of_range` exception at the extremes of `double` are not modelled
(no claim involves a value near those limits). -/
inductive DoubleVal where
  | finite (q : ℚ)
  | infVal (neg : Bool)
  | nanVal
  deriving Repr, DecidableEq

/-- TOML document node, mirroring the node kinds used by both configuration
components: table, string, 64-bit integer, float, boolean, array, plus the
`empty` state of a default-constructed `toml::value`. Tables are modelled as
association lists in insertion order. -/
inductive Toml where
  | empty : Toml
  | bool  : Bool → Toml
  | int   : Int → Toml
  | float : DoubleVal → Toml
  | str   : String → Toml
  | arr   : List Toml → Toml
  | table : List (String × Toml) → Toml

/-- `is_table()` on a TOML node. -/
def Toml.isTable : Toml → Bool
  | Toml.table _ => true
  | _ => false

/-- Key lookup in a table body (`contains` + `at`/`find` of the C++ maps):
the value at the first matching key, if any. -/
def lookupKey : List (String × Toml) → String → Option Toml
  | [], _ => none
  | (k', v') :: rest, k => if k' = k then some v' else lookupKey rest k

/-- `insert_or_assign` / `map[key] = value`: replace the first binding of the
key, or append a new binding. -/
def setKey : List (String × Toml) → String → Toml → List (String × Toml)
  | [], k, v => [(k, v)]
  | (k', v') :: rest, k, v =>
      if k' = k then (k, v) :: rest else (k', v') :: setKey rest k v

theorem lookupKey_setKey_self (t : List (String × Toml)) (k : String) (v : Toml) :
    lookupKey (setKey t k v) k = some v := by
  induction t with
  | nil => simp [setKey, lookupKey]
  | cons hd rest ih =>
      obtain ⟨k', v'⟩ := hd
      by_cases h : k' = k
      · simp [setKey, h, lookupKey]
      · simp [setKey, h, lookupKey, ih]

theorem lookupKey_setKey_other (t : List (String × Toml)) (k k' : String) (v : Toml)
    (h : k' ≠ k) : lookupKey (setKey t k v) k' = lookupKey t k' := by
  have h' : ¬ (k = k') := fun hh => h hh.symm
  induction t with
  | nil => simp [setKey, lookupKey, h']
  | cons hd rest ih =>
      obtain ⟨k₀, v₀⟩ := hd
      by_cases h0 : k₀ = k
      · subst h0
        simp [setKey, lookupKey, h']
      · by_cases h1 : k₀ = k'
        · simp [setKey, h0, lookupKey, h1, h]
        · simp [setKey, h0, lookupKey, h1, ih]

/-- `is_table()` on an optional node (`dest_table.contains(key) &&
dest_table[key].is_table()` in toml11, `target[key].is_table()` on a
`node_view` in toml++: false when the key is absent). -/
def isTableOpt : Option Toml → Bool
  | some (Toml.table _) => true
  | _ => false

/-- The table body of a node (meaningful only when `isTable`). -/
def Toml.tableBody : Toml → List (String × Toml)
  | Toml.table t => t
  | _ => []

/-- The table body of an optional node (meaningful only when `isTableOpt`). -/
def optTableBody : Option Toml → List (String × Toml)
  | some (Toml.table t) => t
  | _ => []

/-- Embedding of `comm::Config::MergeToml`'s table loop
(`comm_config_toml.cpp`): for each source entry, if the destination contains
a table at that key and the source value is a table, merge them recursively;
otherwise the source value overwrites the destination entry. -/
def mergeTable (d : List (String × Toml)) : List (String × Toml) → List (String × Toml)
  | [] => d
  | (k, v) :: rest =>
      mergeTable
        (if isTableOpt (lookupKey d k) && v.isTable
         then setKey d k (Toml.table (mergeTable (optTableBody (lookupKey d k)) v.tableBody))
         else setKey d k v)
        rest
termination_by l => sizeOf l
decreasing_by
  · cases v <;>
      simp only [Toml.tableBody, Prod.mk.sizeOf_spec, List.cons.sizeOf_spec,
        Toml.table.sizeOf_spec, List.nil.sizeOf_spec] <;>
      omega
  · simp only [Prod.mk.sizeOf_spec, List.cons.sizeOf_spec]
    omega

/-- Embedding of `comm::Config::MergeToml` (`comm_config_toml.cpp`): if
source and destination are not both tables, the source overwrites the
destination wholesale; otherwise the tables are merged key by key. -/
def mergeToml (dest src : Toml) : Toml :=
  if dest.isTable && src.isTable
  then Toml.table (mergeTable dest.tableBody src.tableBody)
  else src

/-- Embedding of the recursive lambda `merge_tables` inside
`comm::Config::merge_from_file` (`comm_config.cpp`, toml++ based): for each
source entry, if the source value is a table and the target holds a table at
that key, merge recursively; otherwise `insert_or_assign` the source value.
(`target[key]` on a missing key yields an empty `node_view`, whose
`is_table()` is false.) -/
def merge_tables (target : List (String × Toml)) : List (String × Toml) → List (String × Toml)
  | [] => target
  | (k, v) :: rest =>
      merge_tables
        (if v.isTable && isTableOpt (lookupKey target k)
         then setKey target k
            (Toml.table (merge_tables (optTableBody (lookupKey target k)) v.tableBody))
         else setKey target k v)
        rest
termination_by l => sizeOf l
decreasing_by
  · cases v <;>
      simp only [Toml.tableBody, Prod.mk.sizeOf_spec, List.cons.sizeOf_spec,
        Toml.table.sizeOf_spec, List.nil.sizeOf_spec] <;>
      omega
  · simp only [Prod.mk.sizeOf_spec, List.cons.sizeOf_spec]
    omega

theorem lookupKey_none_of_not_mem (t : List (String × Toml)) (k : String)
    (h : k ∉ t.map Prod.fst) : lookupKey t k = none := by
  induction t with
  | nil => rfl
  | cons hd rest ih =>
      obtain ⟨k₀, v₀⟩ := hd
      simp only [List.map_cons, List.mem_cons] at h
      push_neg at h
      have h1 : ¬ k₀ = k := fun hh => h.1 hh.symm
      simp [lookupKey, h1, ih h.2]

/-- The per-key specification of the recursive merge policy: a key absent
from the source keeps the destination value; a key present in the source
overwrites wholesale, except that two tables at the same key are merged
recursively. -/
def mergeSpec (d s : List (String × Toml)) (k : String) : Option Toml :=
  match lookupKey s k with
  | none => lookupKey d k
  | some sv =>
      if isTableOpt (lookupKey d k) && sv.isTable
      then some (Toml.table (mergeTable (optTableBody (lookupKey d k)) sv.tableBody))
      else some sv

theorem lookupKey_mergeTable (d s : List (String × Toml))
    (hs : (s.map Prod.fst).Nodup) (k : String) :
    lookupKey (mergeTable d s) k = mergeSpec d s k := by
  induction d, s using mergeTable.induct generalizing k with
  | case1 d => simp [mergeTable, mergeSpec, lookupKey]
  | case2 d k₀ v₀ rest ih1 ih2 =>
      simp only [List.map_cons, List.nodup_cons] at hs
      simp only [dite_eq_ite] at ih2
      obtain ⟨hk₀, hrest⟩ := hs
      rw [mergeTable, ih2 hrest]
      by_cases hk : k = k₀
      · subst hk
        have hrnone : lookupKey rest k = none :=
          lookupKey_none_of_not_mem rest k hk₀
        by_cases hcond : (isTableOpt (lookupKey d k) && v₀.isTable) = true
        · simp [mergeSpec, hrnone, lookupKey, hcond, lookupKey_setKey_self]
        · simp [mergeSpec, hrnone, lookupKey, hcond, lookupKey_setKey_self]
      · have hne : k ≠ k₀ := hk
        have hstep :
            lookupKey
              (if isTableOpt (lookupKey d k₀) && v₀.isTable
               then setKey d k₀
                  (Toml.table (mergeTable (optTableBody (lookupKey d k₀)) v₀.tableBody))
               else setKey d k₀ v₀) k = lookupKey d k := by
          split <;> exact lookupKey_setKey_other _ _ _ _ hne
        have hcons : lookupKey ((k₀, v₀) :: rest) k = lookupKey rest k := by
          have h1 : ¬ k₀ = k := fun hh => hne hh.symm
          simp [lookupKey, h1]
        simp only [mergeSpec, hstep, hcons]

theorem merge_tables_eq_mergeTable (d s : List (String × Toml)) :
    merge_tables d s = mergeTable d s := by
  induction d, s using merge_tables.induct with
  | case1 d => rw [merge_tables, mergeTable]
  | case2 d k v rest ih1 ih2 =>
      simp only [dite_eq_ite] at ih2
      rw [merge_tables, mergeTable]
      by_cases hcond : (v.isTable && isTableOpt (lookupKey d k)) = true
      · have hcond' : (isTableOpt (lookupKey d k) && v.isTable) = true := by
          rw [Bool.and_comm]; exact hcond
        rw [if_pos hcond] at ih2 ⊢
        rw [if_pos hcond', ih1 hcond] at *
        exact ih2
      · have hcond' : ¬ (isTableOpt (lookupKey d k) && v.isTable) = true := by
          rw [Bool.and_comm]; exact hcond
        rw [if_neg hcond] at ih2 ⊢
        rw [if_neg hcond']
        exact ih2

/-! ## The singleton TOML configuration service (`comm_config_toml.cpp`) -/

/-- Error kinds of the singleton configuration service (`ConfigError` in
`comm_config_toml.h`). -/
inductive ConfigError where
  | Success | FileNotFound | ParseError | ValidationError | NotInitialized
  deriving Repr, DecidableEq

/-- Result of opening and TOML-parsing one file path, used as a file-system
oracle: the file may be absent (or unreadable), present but syntactically
invalid (`toml::syntax_error`), present but failing with some other
exception, or parse to a document. -/
inductive FileRead where
  | absent
  | syntaxErr
  | otherErr
  | ok (t : Toml)

/-- The singleton `comm::Config`'s member state (`comm_config_toml.h`):
`m_initialized`, `m_app_name`, `m_config_paths` and `m_data`.  The
constructor sets `m_data = toml::table{}`. -/
structure ConfigState where
  initialized : Bool
  app_name : String
  config_paths : List String
  data : Toml

/-- State of a freshly constructed `comm::Config` instance. -/
def initialConfigState : ConfigState :=
  { initialized := false, app_name := "", config_paths := [], data := Toml.table [] }

/-- The two candidate paths built by `Config::Initialize`:
`/etc/<app>/config.toml`, then `<config-home>/<app>/config.toml`.
`GetXdgConfigHome()`'s result is passed in as `xdg_home` (it reads
environment variables). -/
def candidatePaths (app_name xdg_home : String) : List String :=
  ["/etc/" ++ app_name ++ "/config.toml", xdg_home ++ "/" ++ app_name ++ "/config.toml"]

/-- The per-candidate loop of `Config::Initialize`: a missing file is
skipped; a parse succeeds and merges (or replaces a non-table accumulator);
a `toml::syntax_error` aborts the whole operation at once, keeping whatever
was already merged; any other exception is logged and skipped. -/
def initLoop (fs : String → FileRead) : List String → ConfigState → ConfigError × ConfigState
  | [], st => (ConfigError.Success, st)
  | p :: rest, st =>
      match fs p with
      | FileRead.absent => initLoop fs rest st
      | FileRead.otherErr => initLoop fs rest st
      | FileRead.syntaxErr => (ConfigError.ParseError, st)
      | FileRead.ok t =>
          initLoop fs rest
            { st with
              data := if st.data.isTable then mergeToml st.data t else t,
              config_paths := st.config_paths ++ [p] }

/-- Embedding of `Config::Initialize(app_name)`: records the application
name, clears the path list, resets `m_data` to a default-constructed
`toml::value` (the `empty` kind), loads and merges each existing candidate,
and only on success sets `m_initialized`. -/
def Config.Initialize (fs : String → FileRead) (xdg_home : String)
    (st : ConfigState) (app_name : String) : ConfigError × ConfigState :=
  let st1 : ConfigState :=
    { st with app_name := app_name, config_paths := [], data := Toml.empty }
  match initLoop fs (candidatePaths app_name xdg_home) st1 with
  | (ConfigError.Success, st2) => (ConfigError.Success, { st2 with initialized := true })
  | (e, st2) => (e, st2)

/-- Embedding of `Config::Load(config_path)`: on a successful parse the tree
is replaced wholesale, the path list becomes that single path and the
service becomes initialized; a `toml::syntax_error` yields `ParseError` and
any other failure (missing file) yields `FileNotFound`, in both cases
leaving the state unchanged (the parse throws before `m_data` is
assigned). -/
def Config.Load (fs : String → FileRead) (st : ConfigState) (config_path : String) :
    ConfigError × ConfigState :=
  match fs config_path with
  | FileRead.ok t =>
      (ConfigError.Success,
        { st with data := t, config_paths := [config_path], initialized := true })
  | FileRead.syntaxErr => (ConfigError.ParseError, st)
  | _ => (ConfigError.FileNotFound, st)

/-- Embedding of `Config::Reload()`: `NotInitialized` when never initialized
or when no path was recorded; otherwise a full `Initialize(m_app_name)` if
the service was initialized via the XDG hierarchy (non-empty app name), else
a re-`Load` of the single stored path. -/
def Config.Reload (fs : String → FileRead) (xdg_home : String) (st : ConfigState) :
    ConfigError × ConfigState :=
  if st.initialized = false then (ConfigError.NotInitialized, st)
  else
    match st.config_paths with
    | [] => (ConfigError.NotInitialized, st)
    | p :: _ =>
        if st.app_name ≠ "" then Config.Initialize fs xdg_home st st.app_name
        else Config.Load fs st p

/-! ## `std::stoll` / `std::stod` models and `Config::InferValueType` -/

/-- Whitespace per `std::isspace` in the default locale, skipped by the
`strtoll`/`strtod` families. -/
def isCppSpace (c : Char) : Bool :=
  c.toNat = 32 || c.toNat = 9 || c.toNat = 10 || c.toNat = 11 || c.toNat = 12 || c.toNat = 13

def isDigitChar (c : Char) : Bool := 48 ≤ c.toNat && c.toNat ≤ 57

def isHexDigitChar (c : Char) : Bool :=
  isDigitChar c || (97 ≤ c.toNat && c.toNat ≤ 102) || (65 ≤ c.toNat && c.toNat ≤ 70)

def digitsToNat (ds : List Char) : Nat :=
  ds.foldl (fun acc c => 10 * acc + (c.toNat - '0'.toNat)) 0

def hexDigitVal (c : Char) : Nat :=
  if isDigitChar c then c.toNat - '0'.toNat
  else if 'a' ≤ c && c ≤ 'f' then c.toNat - 'a'.toNat + 10
  else c.toNat - 'A'.toNat + 10

def hexToNat (ds : List Char) : Nat :=
  ds.foldl (fun acc c => 16 * acc + hexDigitVal c) 0

def toLowerAscii (c : Char) : Char :=
  if 'A' ≤ c && c ≤ 'Z' then Char.ofNat (c.toNat + 32) else c

/-- Case-insensitive prefix match against a lowercase pattern. -/
def ciPrefix (pat : List Char) (cs : List Char) : Bool :=
  match pat, cs with
  | [], _ => true
  | _ :: _, [] => false
  | p :: ps, c :: rest => (toLowerAscii c = p) && ciPrefix ps rest

/-- The optional-single-sign processing of the `strtoll` grammar:
`(sign-is-minus, sign-length, remainder)`. -/
def signSplit (cs : List Char) : Bool × Nat × List Char :=
  if cs.head? = some '+' || cs.head? = some '-'
  then (cs.head? = some '-', 1, cs.tail)
  else (false, 0, cs)

/-- Model of `std::stoll(s, &pos)` with the default base 10: skip leading
whitespace, read an optional sign and a nonempty run of decimal digits;
throw (`none`) when there is no digit (`invalid_argument`) or the value
does not fit `int64_t` (`out_of_range`).  Returns the value and the number
of characters consumed. -/
def stoll (s : String) : Option (Int × Nat) :=
  let cs := s.data
  let ws := cs.takeWhile isCppSpace
  let (isNeg, nSign, cs2) := signSplit (cs.drop ws.length)
  let ds := cs2.takeWhile isDigitChar
  if ds = [] then none
  else
    let v : Int := (if isNeg then -1 else 1) * (digitsToNat ds : Int)
    if v < -(2 ^ 63) || v > 2 ^ 63 - 1 then none
    else some (v, ws.length + nSign + ds.length)

/-- The chars `strtod` accepts inside a `nan(...)` sequence. -/
def isNanChar (c : Char) : Bool :=
  isDigitChar c || ('a' ≤ c && c ≤ 'z') || ('A' ≤ c && c ≤ 'Z') || c = '_'

/-- Length of an optional `(n-char-sequence)` after `nan` (0 when absent or
unterminated, in which case only `nan` itself is consumed). -/
def nanSuffixLen (cs : List Char) : Nat :=
  match cs with
  | '(' :: rest =>
      let seq := rest.takeWhile isNanChar
      match rest.drop seq.length with
      | ')' :: _ => seq.length + 2
      | _ => 0
  | _ => 0

/-- Parse an exponent suffix `<mark>[+-]?digits`; `(0, 0)` when the suffix
is absent or has no digits (in which case `strtod` does not consume it). -/
def expSuffix (mark : Char) (cs : List Char) : Int × Nat :=
  match cs with
  | c :: rest =>
      if toLowerAscii c = mark then
        let (esgn, nes, rest2) :=
          match rest with
          | '+' :: r => ((1 : Int), 1, r)
          | '-' :: r => ((-1 : Int), 1, r)
          | r => ((1 : Int), 0, r)
        let eds := rest2.takeWhile isDigitChar
        if eds = [] then (0, 0)
        else (esgn * (digitsToNat eds : Int), 1 + nes + eds.length)
      else (0, 0)
  | [] => (0, 0)

/-- Parse a decimal mantissa `digits [. digits]` (at least one digit in
total); value and consumed length. -/
def decMantissa (cs : List Char) : Option (ℚ × Nat) :=
  let ip := cs.takeWhile isDigitChar
  let cs1 := cs.drop ip.length
  match cs1 with
  | '.' :: rest =>
      let fp := rest.takeWhile isDigitChar
      if ip = [] && fp = [] then none
      else
        some ((digitsToNat ip : ℚ) + (digitsToNat fp : ℚ) / (10 : ℚ) ^ fp.length,
          ip.length + 1 + fp.length)
  | _ =>
      if ip = [] then none
      else some ((digitsToNat ip : ℚ), ip.length)

/-- Parse a hexadecimal mantissa `hexdigits [. hexdigits]`. -/
def hexMantissa (cs : List Char) : Option (ℚ × Nat) :=
  let ip := cs.takeWhile isHexDigitChar
  let cs1 := cs.drop ip.length
  match cs1 with
  | '.' :: rest =>
      let fp := rest.takeWhile isHexDigitChar
      if ip = [] && fp = [] then none
      else
        some ((hexToNat ip : ℚ) + (hexToNat fp : ℚ) / (16 : ℚ) ^ fp.length,
          ip.length + 1 + fp.length)
  | _ =>
      if ip = [] then none
      else some ((hexToNat ip : ℚ), ip.length)

/-- Model of `std::stod(s, &pos)` over the `strtod` grammar: optional
whitespace and sign, then `inf`/`infinity`, `nan[(chars)]`, a hexadecimal
literal `0x hexdigits [. hexdigits] [p exp]`, or a decimal literal
`digits [. digits] [e exp]`; `none` when no conversion is possible. -/
def stod (s : String) : Option (DoubleVal × Nat) :=
  let cs := s.data
  let ws := cs.takeWhile isCppSpace
  let cs1 := cs.drop ws.length
  let (neg, nSign, cs2) :=
    match cs1 with
    | '+' :: rest => (false, 1, rest)
    | '-' :: rest => (true, 1, rest)
    | rest => (false, 0, rest)
  let base := ws.length + nSign
  if ciPrefix ['i','n','f','i','n','i','t','y'] cs2 then
    some (DoubleVal.infVal neg, base + 8)
  else if ciPrefix ['i','n','f'] cs2 then
    some (DoubleVal.infVal neg, base + 3)
  else if ciPrefix ['n','a','n'] cs2 then
    some (DoubleVal.nanVal, base + 3 + nanSuffixLen (cs2.drop 3))
  else if ciPrefix ['0','x'] cs2 then
    match hexMantissa (cs2.drop 2) with
    | some (m, nm) =>
        let (e, ne) := expSuffix 'p' (cs2.drop (2 + nm))
        some (DoubleVal.finite ((if neg then -1 else 1) * m * (2 : ℚ) ^ e),
          base + 2 + nm + ne)
    | none =>
        -- `0x` with no hex digit: strtod converts just the leading `0`
        some (DoubleVal.finite 0, base + 1)
  else
    match decMantissa cs2 with
    | some (m, nm) =>
        let (e, ne) := expSuffix 'e' (cs2.drop nm)
        some (DoubleVal.finite ((if neg then -1 else 1) * m * (10 : ℚ) ^ e),
          base + nm + ne)
    | none => none

/-- Whether the exactly-computed `strtod` value makes `std::stod` throw
`std::out_of_range` (`errno == ERANGE`).  Overflow is mandated by C: the
converted value rounds (to nearest, ties to even — the default mode) to
infinity exactly when its magnitude is at least `2^1024 - 2^970`, the
midpoint between `DBL_MAX = 2^1024 - 2^971` and `2^1024` (the midpoint
itself rounds up because `DBL_MAX`'s 53-bit mantissa is odd).  For
underflow, C17 7.22.1.3 leaves setting `errno` implementation-defined; this
follows glibc, the library this Linux-targeted code runs against, which
reports `ERANGE` when the result is tiny and inexact: the magnitude is
nonzero and below `2^-1022 - 2^-1075` (the largest-subnormal/smallest-normal
rounding midpoint, above which the value rounds to a normal number), and
the value is not itself on the `2^-1074` subnormal grid (its reduced
denominator does not divide `2^1074`), in which case rounding loses bits.
`inf`/`nan` results never set `ERANGE`.  The magnitude comparisons are
spelled over the integers `q.num`/`q.den`, cross-multiplied. -/
def stodOutOfRange : DoubleVal → Bool
  | DoubleVal.finite q =>
      decide (((2 : Int) ^ 1024 - 2 ^ 970) * (q.den : Int) ≤ |q.num|) ||
      (decide (¬ q.num = 0) &&
        decide (|q.num| * 2 ^ 1075 < ((2 : Int) ^ 53 - 1) * (q.den : Int)) &&
        decide (¬ ((2 : ℕ) ^ 1074 % q.den = 0)))
  | _ => false

/-- Embedding of `Config::InferValueType(value_str)`
(`comm_config_toml.cpp`): the exact strings `true`/`TRUE`/`false`/`FALSE`
become booleans; otherwise `std::stoll` is tried and its result used when it
consumed the whole string; otherwise `std::stod` likewise — where an
out-of-double-range conversion makes `std::stod` throw `std::out_of_range`
before the `pos` comparison, caught by the `catch (...)` like any parse
failure; otherwise the string itself. -/
def inferValueType (value_str : String) : Toml :=
  if value_str = "true" || value_str = "TRUE" then Toml.bool true
  else if value_str = "false" || value_str = "FALSE" then Toml.bool false
  else
    let intAttempt :=
      match stoll value_str with
      | some (v, pos) => if pos = value_str.length then some v else none
      | none => none
    match intAttempt with
    | some v => Toml.int v
    | none =>
        match stod value_str with
        | some (v, pos) =>
            if stodOutOfRange v then Toml.str value_str
            else if pos = value_str.length then Toml.float v else Toml.str value_str
        | none => Toml.str value_str

/-- Dot-splitting of a key path at the character level, as hand-rolled by
`Config::SetOverride` (`find('.')`/`substr` loop): every `.` starts a new
segment, so `"a.b"` gives `["a", "b"]`, `"a."` gives `["a", ""]` and `""`
gives `[""]`.  (The standalone object's `std::getline(stream, segment, '.')`
loops differ on empty and dot-terminated keys: they never yield a trailing
empty segment; see `navigate_to_node` and `Config.set_string`.) -/
def splitDots : List Char → List (List Char)
  | [] => [[]]
  | c :: rest =>
      if c = '.' then [] :: splitDots rest
      else
        match splitDots rest with
        | seg :: segs => (c :: seg) :: segs
        | [] => [[c]]

/-- A dot-separated path as its list of segments. -/
def splitPath (s : String) : List String :=
  (splitDots s.data).map (fun cs => { data := cs })

theorem splitDots_ne_nil (cs : List Char) : splitDots cs ≠ [] := by
  cases cs with
  | nil => simp [splitDots]
  | cons c rest =>
      by_cases h : c = '.'
      · simp [splitDots, h]
      · simp only [splitDots, if_neg h]
        cases splitDots rest <;> simp

theorem splitPath_ne_nil (s : String) : splitPath s ≠ [] := by
  simp [splitPath, splitDots_ne_nil]

/-- The key walk of `Config::SetOverride` plus the final assignment:
intermediate keys are looked up, and created as empty tables when missing;
an existing non-table intermediate node, or a non-table parent of the final
key, makes the function log an error and return without assigning
(`none`). -/
def setOverrideGo (v : Toml) : Toml → List String → Option Toml
  | _, [] => none
  | cur, key :: rest =>
      match cur, rest with
      | Toml.table t, [] => some (Toml.table (setKey t key v))
      | Toml.table t, _ :: _ =>
          (match setOverrideGo v
              (match lookupKey t key with
               | some c => c
               | none => Toml.table []) rest with
           | some child2 => some (Toml.table (setKey t key child2))
           | none => none)
      | _, _ => none

/-- Embedding of `Config::SetOverride(path, value)`: split the path on `.`,
replace a non-table root with an empty table, then walk and assign the
type-inferred value; a failed walk leaves the (root-fixed) tree as is. -/
def Config.SetOverride (st : ConfigState) (path value : String) : ConfigState :=
  let keys := splitPath path
  let data0 := if st.data.isTable then st.data else Toml.table []
  match setOverrideGo (inferValueType value) data0 keys with
  | some d2 => { st with data := d2 }
  | none => { st with data := data0 }

/-- The lookup skeleton of `Config::Get<T>(path)` (`comm_config_toml.h`,
also `comm_config_core.h`): the whole path string is used as one literal key
of the root table (`m_data.is_table() && m_data.contains(path)`, then
`toml::find(m_data, path)`).  A `some` result feeds
`from_toml(section, result)`; `none` is the branch that calls
`from_toml(toml::value{}, result)` so that `T`'s defaults are produced. -/
def Config.GetSection (st : ConfigState) (path : String) : Option Toml :=
  if st.data.isTable then lookupKey st.data.tableBody path else none

/-! ## The standalone key/value configuration object (`comm_config.cpp`) -/

/-- Error kinds of the standalone key/value configuration object (also named
`ConfigError` in its own header `comm_config.h`; renamed here to avoid the
clash the two C++ components tolerate by living in different include
paths). -/
inductive KVConfigError where
  | Success | FileNotFound | ParseError | WriteError | InvalidPath | KeyNotFound | TypeMismatch
  deriving Repr, DecidableEq

/-- Result of `toml::parse_file` on one path for the toml++-based component:
missing file, parse failure, or a parsed root table. -/
inductive KVFileRead where
  | absent
  | parseErr
  | ok (t : List (String × Toml))

/-- The segment walk of `navigate_to_node(table, key)`: the list holds the
segments the `getline` loop yields, the last of them being the one extracted
up to end-of-input (`stream.eof()`), which is looked up directly; every
earlier (delimiter-terminated) segment must name an existing table. -/
def navGo : List (String × Toml) → List String → Option Toml
  | _, [] => none
  | t, seg :: rest =>
      match rest with
      | [] => lookupKey t seg
      | _ :: _ =>
          match lookupKey t seg with
          | some (Toml.table t2) => navGo t2 rest
          | _ => none

/-- Embedding of `navigate_to_node(table, key)` (`comm_config.cpp`): the
`std::getline(stream, segment, '.')` loop walks nested tables through the
delimiter-terminated segments and returns the node of the segment extracted
up to end-of-input (`stream.eof()`).  An empty `key` yields no segment at
all (the first `getline` fails), and a `key` ending in `.` yields only
delimiter-terminated segments (the final `getline` extracts nothing and
fails before `eof()` is ever observed `true`), so in both cases the loop
falls through to the trailing `return nullptr` whatever the tree holds;
otherwise the yielded segments are exactly `splitPath key` with the last
one eof-terminated. -/
def navigate_to_node (t : List (String × Toml)) (key : String) : Option Toml :=
  if key.data = [] ∨ key.data.getLast? = some '.' then none
  else navGo t (splitPath key)

/-- The creating walk of `create_nested_table(root, key)` followed by the
caller's `insert_or_assign(last, v)`: descend through the given intermediate
segments, creating a fresh empty table for a missing one and overwriting an
existing non-table one (`insert_or_assign(segment, toml::table{})`), then
assign `v` under `last` in the table reached. -/
def setAtPath (t : List (String × Toml)) : List String → String → Toml → List (String × Toml)
  | [], last, v => setKey t last v
  | seg :: rest, last, v =>
      setKey t seg (Toml.table (setAtPath
        (match lookupKey t seg with
         | some (Toml.table t2) => t2
         | _ => []) rest last v))

/-- Embedding of `get_last_segment(key)` (`comm_config.cpp`): the suffix
after the last `.` (`find_last_of`/`substr`), the whole key when it has
none — i.e. the last dot-separated segment, which is empty exactly when the
key is empty or ends in `.`. -/
def get_last_segment (key : String) : String :=
  (splitPath key).getLast (splitPath_ne_nil key)

/-- Embedding of `Config::set_string(key, value)` of the standalone object:
`create_nested_table` processes every delimiter-terminated segment of its
`getline` loop as an intermediate — that is `(splitPath key).dropLast`,
since a segment extracted up to end-of-input is returned to the caller
unprocessed, a key ending in `.` yields only delimiter-terminated segments,
and an empty key yields none — and the value is then assigned under
`get_last_segment key` in the table reached. -/
def Config.set_string (data : List (String × Toml)) (key value : String) :
    List (String × Toml) :=
  setAtPath data (splitPath key).dropLast (get_last_segment key) (Toml.str value)

/-- Embedding of `Config::get_string(key)` of the standalone object: the
navigated node when it is a string. -/
def Config.get_string (data : List (String × Toml)) (key : String) : Option String :=
  match navigate_to_node data key with
  | some (Toml.str s) => some s
  | _ => none

/-- Embedding of `Config::load_from_file(path)`: `FileNotFound` when the
file does not exist, `ParseError` (tree unchanged) on a parse failure, else
the tree is replaced wholesale. -/
def Config.load_from_file (fs : String → KVFileRead)
    (data : List (String × Toml)) (path : String) :
    KVConfigError × List (String × Toml) :=
  match fs path with
  | KVFileRead.absent => (KVConfigError.FileNotFound, data)
  | KVFileRead.parseErr => (KVConfigError.ParseError, data)
  | KVFileRead.ok t => (KVConfigError.Success, t)

/-- Embedding of `Config::merge_from_file(path)`: `FileNotFound` when the
file does not exist, `ParseError` (tree unchanged) on a parse failure, else
the parsed table is recursively merged into the tree. -/
def Config.merge_from_file (fs : String → KVFileRead)
    (data : List (String × Toml)) (path : String) :
    KVConfigError × List (String × Toml) :=
  match fs path with
  | KVFileRead.absent => (KVConfigError.FileNotFound, data)
  | KVFileRead.parseErr => (KVConfigError.ParseError, data)
  | KVFileRead.ok t => (KVConfigError.Success, merge_tables data t)

/-- The user-file resolution inside `load_xdg_hierarchy`: from
`XDG_CONFIG_HOME` when set, else from `HOME` with `/.config` appended, else
no user path at all (the empty `user_config` is skipped). -/
def xdgUserConfigPath (xdgEnv homeEnv : Option String) (app_name : String) :
    Option String :=
  match xdgEnv with
  | some x => some (x ++ "/" ++ app_name ++ "/config.toml")
  | none =>
      match homeEnv with
      | some h => some (h ++ "/.config/" ++ app_name ++ "/config.toml")
      | none => none

/-- Embedding of `Config::load_xdg_hierarchy(app_name,
system_config_path)`: load the system file if it exists (a load error is
swallowed), then merge the user file resolved from `XDG_CONFIG_HOME` or
`HOME` if that file exists (a merge error is swallowed); `Success` iff at
least one of the two steps actually loaded, else `FileNotFound`.  The
environment is passed in as the two optional variables. -/
def Config.load_xdg_hierarchy (fs : String → KVFileRead)
    (xdgEnv homeEnv : Option String) (data : List (String × Toml))
    (app_name : String) (system_config_path : Option String) :
    KVConfigError × List (String × Toml) :=
  let sys := system_config_path.getD ("/etc/" ++ app_name ++ "/config.toml")
  let step1 :=
    match fs sys with
    | KVFileRead.absent => (false, data)
    | KVFileRead.parseErr => (false, data)
    | KVFileRead.ok t => (true, t)
  let user : Option String := xdgUserConfigPath xdgEnv homeEnv app_name
  let step2 :=
    match user with
    | none => (false, step1.2)
    | some up =>
        match fs up with
        | KVFileRead.absent => (false, step1.2)
        | KVFileRead.parseErr => (false, step1.2)
        | KVFileRead.ok t => (true, merge_tables step1.2 t)
  (if step1.1 || step2.1 then KVConfigError.Success else KVConfigError.FileNotFound,
    step2.2)

/-! ## Termination & signal handling (`comm_terminate.cpp`) -/

def SIGHUP : Nat := 1
def SIGINT : Nat := 2
def SIGQUIT : Nat := 3
def SIGILL : Nat := 4
def SIGTRAP : Nat := 5
def SIGABRT : Nat := 6
def SIGFPE : Nat := 8
def SIGKILL : Nat := 9
def SIGSEGV : Nat := 11
def SIGPIPE : Nat := 13
def SIGALRM : Nat := 14
def SIGTERM : Nat := 15

/-- Embedding of the anonymous-namespace `GetSignalName(signal)` switch in
`comm_terminate.cpp`, with Linux signal numbers. -/
def GetSignalName (signal : Nat) : String :=
  if signal = SIGINT then "Interactive attention signal"
  else if signal = SIGILL then "Illegal instruction"
  else if signal = SIGABRT then "Abnormal termination"
  else if signal = SIGFPE then "Erroneous arithmetic operation"
  else if signal = SIGSEGV then "Invalid access to storage"
  else if signal = SIGTERM then "Termination request"
  else if signal = SIGHUP then "Hangup"
  else if signal = SIGQUIT then "Quit"
  else if signal = SIGTRAP then "Trace/breakpoint trap"
  else if signal = SIGKILL then "Killed"
  else if signal = SIGPIPE then "Broken pipe"
  else if signal = SIGALRM then "Alarm clock"
  else "Unknown signal " ++ toString signal

/-- Event kinds drained by the event-processor thread. -/
inductive EventType where
  | ConfigReload | Shutdown
  deriving Repr, DecidableEq

/-- The `Terminate` members touched by the signal-wait loop: the shared
event queue, the recorded termination reason (`m_terminate_reason`, empty
until set) and whether the shared binary semaphore `m_terminate` has been
released. -/
structure TermState where
  event_queue : List EventType
  terminate_reason : String
  released : Bool

/-- Embedding of the `sigwait` loop of `Terminate::WaitForTerminateSignal`
(`comm_terminate.cpp`) applied to the sequence of signals `sigwait` has
delivered so far: SIGHUP pushes a ConfigReload event under the queue lock
and resumes waiting; any other delivered signal records its
`GetSignalName` reason, exits the loop and releases the termination
semaphore, leaving later deliveries unprocessed.  An exhausted list models
the thread still blocked in `sigwait` (nothing released). -/
def waitForTerminateSignal : List Nat → TermState → TermState
  | [], st => st
  | sig :: rest, st =>
      if sig = SIGHUP then
        waitForTerminateSignal rest
          { st with event_queue := st.event_queue ++ [EventType.ConfigReload] }
      else
        { st with terminate_reason := GetSignalName sig, released := true }

/-! ## OS utility primitives (`comm_os`) -/

/-- `drv::Semaphore::Wait()` (`comm_os.h`, also `comm_terminate.h`): the
call blocks while `m_counter == 0` (modelled `none`); otherwise it
decrements the counter and returns. -/
def Semaphore.Wait (counter : Int) : Option Int :=
  if counter = 0 then none else some (counter - 1)

/-- `drv::Semaphore::Signal()`: increments the counter. -/
def Semaphore.Signal (counter : Int) : Int := counter + 1

/-- The port-probe loop of `drv::FindAvailablePort` (`comm_os.cpp`):
`attemptOk p` is the oracle for "socket creation and bind to port `p` both
succeeded" (a failed `socket()` and a failed `bind()` both fall through to
the next port).  The loop counter is a `uint16_t`, so the value is always
`port % 2^16`, `++port` wraps, and the guard `port <= 65535` is evaluated
on the wrapped value; the guard-false branch is the source's `return 0`.
`fuel` bounds how many iterations we observe (the C++ loop has no such
bound); `none` means the loop is still running after `fuel` iterations. -/
def findAvailablePortLoop (attemptOk : Nat → Bool) : Nat → Nat → Option Nat
  | 0, _ => none
  | fuel + 1, port =>
      if port % 65536 ≤ 65535 then
        if attemptOk (port % 65536) then some (port % 65536)
        else findAvailablePortLoop attemptOk fuel (port % 65536 + 1)
      else some 0

/-- `drv::FindAvailablePort(port_number)` as the loop above started at the
given (uint16) port. -/
def FindAvailablePort (attemptOk : Nat → Bool) (fuel : Nat) (port_number : Nat) :
    Option Nat :=
  findAvailablePortLoop attemptOk fuel (port_number % 65536)

/-! ## Claim theorems -/

/-- C5: for every pair of TOML trees, the recursive merge used by both
configuration components merges two tables at the same key key-by-key
recursively, and in every other case (any non-table source value, or a
source value merging into a non-table destination) the source value
wholesale overwrites the destination at that key — so a later-merged file's
scalar always wins at the same path.  Stated as: the top-level overwrite of
`MergeToml` for non-table operands, its table case, and the per-key
behaviour (`mergeSpec`) of both components' merge loops. -/
theorem merge_recursive_tables_scalar_overwrites :
    (∀ dest src : Toml, (dest.isTable && src.isTable) = false → mergeToml dest src = src) ∧
    (∀ d s : List (String × Toml),
        mergeToml (Toml.table d) (Toml.table s) = Toml.table (mergeTable d s)) ∧
    (∀ (d s : List (String × Toml)) (k : String), (s.map Prod.fst).Nodup →
        lookupKey (mergeTable d s) k = mergeSpec d s k) ∧
    (∀ (d s : List (String × Toml)) (k : String), (s.map Prod.fst).Nodup →
        lookupKey (merge_tables d s) k = mergeSpec d s k) := by
  refine ⟨?_, ?_, ?_, ?_⟩
  · intro dest src h
    simp [mergeToml, h]
  · intro d s
    simp [mergeToml, Toml.isTable, Toml.tableBody]
  · exact fun d s k hs => lookupKey_mergeTable d s hs k
  · intro d s k hs
    rw [merge_tables_eq_mergeTable]
    exact lookupKey_mergeTable d s hs k

/-- Witness for C5 at the spec's merge scenario (base `server.host`,
`server.port` merged with an override file's `server.port`, `server.debug`):
the nested tables merge recursively. -/
theorem merge_recursive_tables_scalar_overwrites_witness :
    lookupKey
        (merge_tables
          [("server", Toml.table [("host", Toml.str "localhost"), ("port", Toml.int 8080)])]
          [("server", Toml.table [("port", Toml.int 9090), ("debug", Toml.bool true)])])
        "server"
      = some (Toml.table (mergeTable
          [("host", Toml.str "localhost"), ("port", Toml.int 8080)]
          [("port", Toml.int 9090), ("debug", Toml.bool true)])) := by
  have h := merge_recursive_tables_scalar_overwrites.2.2.2
    [("server", Toml.table [("host", Toml.str "localhost"), ("port", Toml.int 8080)])]
    [("server", Toml.table [("port", Toml.int 9090), ("debug", Toml.bool true)])]
    "server" (by simp)
  rw [h]
  simp [mergeSpec, lookupKey, isTableOpt, Toml.isTable, optTableBody, Toml.tableBody]

/-- C9: `Config::Get<T>(path)` treats the whole dot-separated path as one
literal top-level key of the root table: over a tree whose top-level keys
are ordinary (dot-free) TOML keys, any multi-segment path (one containing a
`.`) finds no section, so the `from_toml(toml::value{}, ...)` defaults
branch is taken — even when nested tables exist at the path's segments. -/
theorem get_treats_path_as_literal_toplevel_key (st : ConfigState)
    (t : List (String × Toml)) (path : String)
    (hd : st.data = Toml.table t)
    (hkeys : ∀ p ∈ t, '.' ∉ p.1.data)
    (hpath : '.' ∈ path.data) :
    Config.GetSection st path = none := by
  have hnm : path ∉ t.map Prod.fst := by
    intro hmem
    simp only [List.mem_map] at hmem
    obtain ⟨p, hp, hpe⟩ := hmem
    exact hkeys p hp (hpe ▸ hpath)
  simp [Config.GetSection, hd, Toml.isTable, Toml.tableBody,
    lookupKey_none_of_not_mem t path hnm]

/-- Witness for C9: with the tree `{ a = { b = {} } }`, looking up `"a.b"`
finds nothing (defaults are used), although the nested walk used by the
standalone object does reach a node at the same path. -/
theorem get_treats_path_as_literal_toplevel_key_witness :
    Config.GetSection
        { initialized := true, app_name := "", config_paths := [],
          data := Toml.table [("a", Toml.table [("b", Toml.table [])])] } "a.b" = none ∧
    navigate_to_node [("a", Toml.table [("b", Toml.table [])])] "a.b"
      = some (Toml.table []) := by
  constructor
  · exact get_treats_path_as_literal_toplevel_key _
      [("a", Toml.table [("b", Toml.table [])])] "a.b" rfl (by decide) (by decide)
  · rfl

/-- C10: `Semaphore::Wait` blocks exactly while the counter is zero and
otherwise decrements it by one and returns; hence for any negative counter
(as after constructing the semaphore with a negative initial count) it
returns immediately and drives the counter further below zero. -/
theorem semaphore_wait_blocks_only_at_zero (c : Int) :
    (Semaphore.Wait c = none ↔ c = 0) ∧
    (c ≠ 0 → Semaphore.Wait c = some (c - 1)) ∧
    (c < 0 → Semaphore.Wait c = some (c - 1) ∧ c - 1 < c ∧ c - 1 < 0) := by
  refine ⟨?_, ?_, ?_⟩
  · constructor
    · intro h
      by_contra hne
      simp [Semaphore.Wait, hne] at h
    · intro h
      simp [Semaphore.Wait, h]
  · intro h
    simp [Semaphore.Wait, h]
  · intro h
    have hne : c ≠ 0 := by omega
    exact ⟨by simp [Semaphore.Wait, hne], by omega, by omega⟩

/-- Witness for C10 at counter `-3`: `Wait` returns at once and leaves
`-4`. -/
theorem semaphore_wait_blocks_only_at_zero_witness :
    Semaphore.Wait (-3) = some (-3 - 1) ∧ (-3 - 1 : Int) < -3 ∧ (-3 - 1 : Int) < 0 :=
  (semaphore_wait_blocks_only_at_zero (-3)).2.2 (by norm_num)

theorem findLoop_all_fail (fuel p : Nat) :
    findAvailablePortLoop (fun _ => false) fuel p = none := by
  induction fuel generalizing p with
  | zero => rfl
  | succ n ih =>
      have hg : p % 65536 ≤ 65535 := by omega
      simp [findAvailablePortLoop, hg, ih]

/-- C7 (refutation of the claimed termination / return-0 behaviour): the
loop counter of `FindAvailablePort` is a `uint16_t`, so its value is always
at most 65535 and the guard `port <= 65535` never becomes false; when every
socket/bind attempt fails the loop therefore runs forever (it wraps from
65535 back to 0), and the `return 0` statement is never reached — for no
amount of fuel does the probe return. -/
theorem findAvailablePort_runs_forever_when_no_bind_succeeds :
    (∀ fuel start : Nat, FindAvailablePort (fun _ => false) fuel start = none) ∧
    (∀ port : Nat, port % 65536 ≤ 65535) := by
  constructor
  · intro fuel start
    exact findLoop_all_fail fuel (start % 65536)
  · intro port
    omega

theorem waitFor_cons_hup (rest : List Nat) (st : TermState) :
    waitForTerminateSignal (SIGHUP :: rest) st =
      waitForTerminateSignal rest
        { st with event_queue := st.event_queue ++ [EventType.ConfigReload] } := by
  rw [waitForTerminateSignal, if_pos rfl]

theorem waitFor_cons_term (sig : Nat) (h : ¬ sig = SIGHUP) (rest : List Nat)
    (st : TermState) :
    waitForTerminateSignal (sig :: rest) st =
      { st with terminate_reason := GetSignalName sig, released := true } := by
  rw [waitForTerminateSignal, if_neg h]

/-- C3: for the delivered-signal sequences of the signal-wait loop: every
SIGHUP enqueues one ConfigReload event and the loop resumes waiting without
terminating and without releasing the termination semaphore; the first
SIGINT/SIGTERM/SIGQUIT records the signal-specific reason ("Interactive
attention signal" / "Termination request" / "Quit"), exits the loop and
releases the semaphore that unblocks `WaitForTermination`. -/
theorem waitloop_sighup_reloads_terminators_release
    (pre rest : List Nat) (st : TermState) (t : Nat)
    (hpre : ∀ s ∈ pre, s = SIGHUP)
    (ht : t = SIGINT ∨ t = SIGTERM ∨ t = SIGQUIT) :
    ((waitForTerminateSignal pre st).released = st.released ∧
     (waitForTerminateSignal pre st).terminate_reason = st.terminate_reason ∧
     (waitForTerminateSignal pre st).event_queue
        = st.event_queue ++ List.replicate pre.length EventType.ConfigReload) ∧
    ((waitForTerminateSignal (pre ++ t :: rest) st).released = true ∧
     (waitForTerminateSignal (pre ++ t :: rest) st).event_queue
        = st.event_queue ++ List.replicate pre.length EventType.ConfigReload ∧
     (waitForTerminateSignal (pre ++ t :: rest) st).terminate_reason = GetSignalName t) ∧
    (GetSignalName SIGINT = "Interactive attention signal" ∧
     GetSignalName SIGTERM = "Termination request" ∧
     GetSignalName SIGQUIT = "Quit") := by
  have htne : ¬ (t = SIGHUP) := by
    rcases ht with h | h | h <;> subst h <;> decide
  have part1 : ∀ (l : List Nat) (st' : TermState), (∀ s ∈ l, s = SIGHUP) →
      (waitForTerminateSignal l st').released = st'.released ∧
      (waitForTerminateSignal l st').terminate_reason = st'.terminate_reason ∧
      (waitForTerminateSignal l st').event_queue
        = st'.event_queue ++ List.replicate l.length EventType.ConfigReload := by
    intro l
    induction l with
    | nil => intro st' _; simp [waitForTerminateSignal]
    | cons s0 prest ih =>
        intro st' hall
        have hs0 : s0 = SIGHUP := hall s0 (by simp)
        subst hs0
        have hrest : ∀ s ∈ prest, s = SIGHUP := fun s hs => hall s (by simp [hs])
        rw [waitFor_cons_hup]
        obtain ⟨h1, h2, h3⟩ := ih _ hrest
        refine ⟨h1, h2, ?_⟩
        rw [h3]
        simp [List.replicate_succ]
  have part2 : ∀ (l : List Nat) (st' : TermState), (∀ s ∈ l, s = SIGHUP) →
      (waitForTerminateSignal (l ++ t :: rest) st').released = true ∧
      (waitForTerminateSignal (l ++ t :: rest) st').event_queue
        = st'.event_queue ++ List.replicate l.length EventType.ConfigReload ∧
      (waitForTerminateSignal (l ++ t :: rest) st').terminate_reason = GetSignalName t := by
    intro l
    induction l with
    | nil =>
        intro st' _
        rw [List.nil_append, waitFor_cons_term t htne]
        simp
    | cons s0 prest ih =>
        intro st' hall
        have hs0 : s0 = SIGHUP := hall s0 (by simp)
        subst hs0
        have hrest : ∀ s ∈ prest, s = SIGHUP := fun s hs => hall s (by simp [hs])
        rw [List.cons_append, waitFor_cons_hup]
        obtain ⟨h1, h2, h3⟩ := ih _ hrest
        refine ⟨h1, ?_, h3⟩
        rw [h2]
        simp [List.replicate_succ]
  exact ⟨part1 pre st hpre, part2 pre st hpre, rfl, rfl, rfl⟩

/-- Witness for C3 on the concrete trace HUP, HUP, TERM, INT starting from
the initial state: two reload events are queued, the semaphore is released
by the SIGTERM, the reason is "Termination request", and the trailing
SIGINT is never processed. -/
theorem waitloop_sighup_reloads_terminators_release_witness :
    (waitForTerminateSignal [SIGHUP, SIGHUP, SIGTERM, SIGINT]
        { event_queue := [], terminate_reason := "", released := false }).released = true ∧
    (waitForTerminateSignal [SIGHUP, SIGHUP, SIGTERM, SIGINT]
        { event_queue := [], terminate_reason := "", released := false }).event_queue
      = [EventType.ConfigReload, EventType.ConfigReload] ∧
    (waitForTerminateSignal [SIGHUP, SIGHUP, SIGTERM, SIGINT]
        { event_queue := [], terminate_reason := "", released := false }).terminate_reason
      = "Termination request" := by
  have h := waitloop_sighup_reloads_terminators_release [SIGHUP, SIGHUP] [SIGINT]
    { event_queue := [], terminate_reason := "", released := false } SIGTERM
    (by decide) (Or.inr (Or.inl rfl))
  exact ⟨h.2.1.1, h.2.1.2.1, h.2.1.2.2.trans h.2.2.2.1⟩

theorem takeWhile_all_append (p : Char → Bool) (l₁ l₂ : List Char)
    (h : ∀ c ∈ l₁, p c = true) :
    (l₁ ++ l₂).takeWhile p = l₁ ++ l₂.takeWhile p := by
  induction l₁ with
  | nil => simp
  | cons c cs ih =>
      have hc : p c = true := h c (by simp)
      rw [List.cons_append, List.takeWhile_cons_of_pos hc,
        ih (fun c2 hc2 => h c2 (by simp [hc2])), List.cons_append]

theorem takeWhile_append_drop_len (p : Char → Bool) (l : List Char) :
    l.takeWhile p ++ l.drop (l.takeWhile p).length = l := by
  induction l with
  | nil => rfl
  | cons c cs ih =>
      by_cases h : p c = true
      · rw [List.takeWhile_cons_of_pos h]
        simp only [List.length_cons, List.drop_succ_cons, List.cons_append]
        exact congrArg (c :: ·) ih
      · rw [List.takeWhile_cons_of_neg (by simp [h])]
        simp

theorem digit_not_space {c : Char} (h : isDigitChar c = true) : isCppSpace c = false := by
  simp only [isDigitChar, Bool.and_eq_true, decide_eq_true_eq] at h
  simp only [isCppSpace, Bool.or_eq_false_iff, decide_eq_false_iff_not]
  omega

theorem digit_ne_plus {c : Char} (h : isDigitChar c = true) : ¬ c = '+' := by
  intro hc; subst hc; exact absurd h (by decide)

theorem digit_ne_minus {c : Char} (h : isDigitChar c = true) : ¬ c = '-' := by
  intro hc; subst hc; exact absurd h (by decide)

/-- `stoll` succeeding on the entire string (the `pos == value_str.length()`
test of `InferValueType`), as an executable observer. -/
def stollFull (s : String) : Option Int :=
  match stoll s with
  | some (v, pos) => if pos = s.length then some v else none
  | none => none

/-- Declarative characterization of "the entire string parses as an
`int64_t` via `std::stoll`": C-locale whitespace, then an optional single
sign, then a nonempty run of decimal digits reaching the end of the string,
with the signed value within the `int64_t` range. -/
def Int64FullParse (s : String) (v : Int) : Prop :=
  ∃ w g ds : List Char,
    s.data = w ++ g ++ ds ∧
    (∀ c ∈ w, isCppSpace c = true) ∧
    (g = [] ∨ g = ['+'] ∨ g = ['-']) ∧
    ds ≠ [] ∧ (∀ c ∈ ds, isDigitChar c = true) ∧
    v = (if g = ['-'] then -1 else 1) * (digitsToNat ds : Int) ∧
    -(2 ^ 63) ≤ v ∧ v ≤ 2 ^ 63 - 1

theorem stollFull_iff (s : String) (v : Int) :
    stollFull s = some v ↔ Int64FullParse s v := by
  have hWR : s.data.takeWhile isCppSpace ++
      s.data.drop ((s.data.takeWhile isCppSpace).length) = s.data :=
    takeWhile_append_drop_len _ _
  have hW : ∀ c ∈ s.data.takeWhile isCppSpace, isCppSpace c = true :=
    fun _ hc => List.mem_takeWhile_imp hc
  have hslen : s.length = s.data.length := rfl
  constructor
  · intro h
    rcases hstoll : stoll s with _ | ⟨v', pos⟩
    · simp [stollFull, hstoll] at h
    simp only [stollFull, hstoll] at h
    by_cases hpos : pos = s.length
    swap
    · rw [if_neg hpos] at h
      exact absurd h (by simp)
    rw [if_pos hpos] at h
    have hv' : v' = v := by injection h
    subst hv'
    simp only [stoll] at hstoll
    rcases hR : s.data.drop ((s.data.takeWhile isCppSpace).length) with _ | ⟨c, tl⟩
    · rw [hR] at hstoll
      simp [signSplit] at hstoll
    rw [hR] at hstoll
    have hsdata : s.data = s.data.takeWhile isCppSpace ++ c :: tl := by
      conv_lhs => rw [← hWR]
      rw [hR]
    by_cases hplus : c = '+'
    · subst hplus
      rw [show signSplit ('+' :: tl) = (false, 1, tl) from rfl] at hstoll
      dsimp only at hstoll
      rw [if_neg Bool.false_ne_true] at hstoll
      split at hstoll
      · exact absurd hstoll (by simp)
      split at hstoll
      · exact absurd hstoll (by simp)
      next hne hrange =>
      rw [Option.some.injEq, Prod.mk.injEq] at hstoll
      obtain ⟨hveq, hposeq⟩ := hstoll
      have htl : tl = tl.takeWhile isDigitChar := by
        have hlen1 : pos = s.data.length := hpos.trans hslen
        have hlen2 : s.data.length
            = (s.data.takeWhile isCppSpace).length + (1 + tl.length) := by
          conv_lhs => rw [hsdata]
          simp [Nat.add_comm]
        have happ := takeWhile_append_drop_len isDigitChar tl
        have hdrop2 : (tl.drop ((tl.takeWhile isDigitChar).length)).length = 0 := by
          have hlen4 := congrArg List.length happ
          simp only [List.length_append] at hlen4
          omega
        rw [List.length_eq_zero] at hdrop2
        conv_lhs => rw [← happ]
        rw [hdrop2, List.append_nil]
      refine ⟨s.data.takeWhile isCppSpace, ['+'], tl.takeWhile isDigitChar,
        ?_, hW, Or.inr (Or.inl rfl), hne, fun c2 hc2 => List.mem_takeWhile_imp hc2,
        ?_, ?_, ?_⟩
      · conv_lhs => rw [hsdata]
        rw [← htl]
        simp
      · rw [← hveq]; simp
      · simp only [Bool.or_eq_true, decide_eq_true_eq, not_or] at hrange
        omega
      · simp only [Bool.or_eq_true, decide_eq_true_eq, not_or] at hrange
        omega
    by_cases hminus : c = '-'
    · subst hminus
      rw [show signSplit ('-' :: tl) = (true, 1, tl) from rfl] at hstoll
      dsimp only at hstoll
      rw [if_pos rfl] at hstoll
      split at hstoll
      · exact absurd hstoll (by simp)
      split at hstoll
      · exact absurd hstoll (by simp)
      next hne hrange =>
      rw [Option.some.injEq, Prod.mk.injEq] at hstoll
      obtain ⟨hveq, hposeq⟩ := hstoll
      have htl : tl = tl.takeWhile isDigitChar := by
        have hlen1 : pos = s.data.length := hpos.trans hslen
        have hlen2 : s.data.length
            = (s.data.takeWhile isCppSpace).length + (1 + tl.length) := by
          conv_lhs => rw [hsdata]
          simp [Nat.add_comm]
        have happ := takeWhile_append_drop_len isDigitChar tl
        have hdrop2 : (tl.drop ((tl.takeWhile isDigitChar).length)).length = 0 := by
          have hlen4 := congrArg List.length happ
          simp only [List.length_append] at hlen4
          omega
        rw [List.length_eq_zero] at hdrop2
        conv_lhs => rw [← happ]
        rw [hdrop2, List.append_nil]
      refine ⟨s.data.takeWhile isCppSpace, ['-'], tl.takeWhile isDigitChar,
        ?_, hW, Or.inr (Or.inr rfl), hne, fun c2 hc2 => List.mem_takeWhile_imp hc2,
        ?_, ?_, ?_⟩
      · conv_lhs => rw [hsdata]
        rw [← htl]
        simp
      · rw [← hveq]; simp
      · simp only [Bool.or_eq_true, decide_eq_true_eq, not_or] at hrange
        omega
      · simp only [Bool.or_eq_true, decide_eq_true_eq, not_or] at hrange
        omega
    · have hss : signSplit (c :: tl) = (false, 0, c :: tl) := by
        simp [signSplit, hplus, hminus]
      rw [hss] at hstoll
      dsimp only at hstoll
      rw [if_neg Bool.false_ne_true] at hstoll
      split at hstoll
      · exact absurd hstoll (by simp)
      split at hstoll
      · exact absurd hstoll (by simp)
      next hne hrange =>
      rw [Option.some.injEq, Prod.mk.injEq] at hstoll
      obtain ⟨hveq, hposeq⟩ := hstoll
      have htl : c :: tl = (c :: tl).takeWhile isDigitChar := by
        have hlen1 : pos = s.data.length := hpos.trans hslen
        have hlen2 : s.data.length
            = (s.data.takeWhile isCppSpace).length + (c :: tl).length := by
          conv_lhs => rw [hsdata]
          simp
        have happ := takeWhile_append_drop_len isDigitChar (c :: tl)
        have hdrop2 : (((c :: tl).drop (((c :: tl).takeWhile isDigitChar).length))).length
            = 0 := by
          have hlen4 := congrArg List.length happ
          simp only [List.length_append] at hlen4
          simp only [List.length_cons] at hlen2 hlen4 ⊢
          omega
        rw [List.length_eq_zero] at hdrop2
        conv_lhs => rw [← happ]
        rw [hdrop2, List.append_nil]
      refine ⟨s.data.takeWhile isCppSpace, [], (c :: tl).takeWhile isDigitChar,
        ?_, hW, Or.inl rfl, hne, fun c2 hc2 => List.mem_takeWhile_imp hc2,
        ?_, ?_, ?_⟩
      · conv_lhs => rw [hsdata]
        rw [← htl]
        simp
      · rw [← hveq]; simp
      · simp only [Bool.or_eq_true, decide_eq_true_eq, not_or] at hrange
        omega
      · simp only [Bool.or_eq_true, decide_eq_true_eq, not_or] at hrange
        omega
  · rintro ⟨w, g, ds, hcs, hw, hg, hne, hdig, hv, hlo, hhi⟩
    obtain ⟨d0, ds', hds⟩ : ∃ d0 ds', ds = d0 :: ds' := by
      cases ds with
      | nil => exact absurd rfl hne
      | cons d0 ds' => exact ⟨d0, ds', rfl⟩
    have hd0 : isDigitChar d0 = true := hdig d0 (by rw [hds]; simp)
    have htw : s.data.takeWhile isCppSpace = w := by
      have h1 : (g ++ ds).takeWhile isCppSpace = [] := by
        rcases hg with hg | hg | hg <;> subst hg
        · rw [List.nil_append, hds,
            List.takeWhile_cons_of_neg (by simp [digit_not_space hd0])]
        · rw [List.cons_append, List.takeWhile_cons_of_neg (by decide)]
        · rw [List.cons_append, List.takeWhile_cons_of_neg (by decide)]
      rw [hcs, List.append_assoc, takeWhile_all_append isCppSpace w _ hw, h1,
        List.append_nil]
    have hdrop : s.data.drop w.length = g ++ ds := by
      rw [hcs, List.append_assoc, List.drop_left]
    have hds_tw : ds.takeWhile isDigitChar = ds := by
      rw [List.takeWhile_eq_self_iff]
      exact fun c hc => hdig c hc
    have hlen : s.length = w.length + g.length + ds.length := by
      rw [hslen, hcs]
      simp [Nat.add_assoc]
    have hrange : ((decide (v < -(2 ^ 63)) || decide (v > 2 ^ 63 - 1))) = false := by
      simp only [Bool.or_eq_false_iff, decide_eq_false_iff_not]
      exact ⟨by omega, by omega⟩
    rcases hg with hg | hg | hg <;> subst hg
    · have hss : signSplit ds = (false, 0, ds) := by
        rw [hds]
        simp [signSplit, digit_ne_plus hd0, digit_ne_minus hd0]
      have hval : (if ((false : Bool) = true) then (-1 : Int) else 1)
          * (digitsToNat ds : Int) = v := by
        rw [hv]; simp
      have hposx : w.length + 0 + ds.length = s.length := by
        rw [hlen]; simp
      simp only [stollFull, stoll, htw, hdrop, List.nil_append, hss]
      simp only [hds_tw]
      rw [if_neg hne, hval, hrange, if_neg Bool.false_ne_true]
      simp [← hposx]
    · have hss : signSplit ('+' :: ds) = (false, 1, ds) := rfl
      have hval : (if ((false : Bool) = true) then (-1 : Int) else 1)
          * (digitsToNat ds : Int) = v := by
        rw [hv]; simp
      have hposx : w.length + 1 + ds.length = s.length := by
        rw [hlen]; simp
      simp only [stollFull, stoll, htw, hdrop, List.singleton_append, hss]
      simp only [hds_tw]
      rw [if_neg hne, hval, hrange, if_neg Bool.false_ne_true]
      simp [hposx]
    · have hss : signSplit ('-' :: ds) = (true, 1, ds) := rfl
      have hposx : w.length + 1 + ds.length = s.length := by
        rw [hlen]; simp
      simp only [stollFull, stoll, htw, hdrop, List.singleton_append, hss]
      simp only [hds_tw]
      rw [if_neg hne, if_pos trivial,
        show (-1 : Int) * (digitsToNat ds : Int) = v from by rw [hv]; simp,
        hrange, if_neg Bool.false_ne_true]
      simp [← hposx]

/-- `stod` succeeding on the entire string (the `pos == value_str.length()`
test of `InferValueType`), as an executable observer. -/
def stodFull (s : String) : Option DoubleVal :=
  match stod s with
  | some (d, pos) => if pos = s.length then some d else none
  | none => none

theorem inferValueType_eq (s : String) :
    inferValueType s =
      (if s = "true" || s = "TRUE" then Toml.bool true
       else if s = "false" || s = "FALSE" then Toml.bool false
       else
         match stollFull s with
         | some v => Toml.int v
         | none =>
             match stodFull s with
             | some d => if stodOutOfRange d then Toml.str s else Toml.float d
             | none => Toml.str s) := by
  simp only [inferValueType, stollFull, stodFull]
  rcases hA : stoll s with _ | ⟨v0, p0⟩
  · rcases hB : stod s with _ | ⟨d0, q0⟩
    · rfl
    · by_cases hq : q0 = s.length <;> by_cases ho : stodOutOfRange d0 = true <;>
        simp [hq, ho]
  · by_cases hp : p0 = s.length
    · simp [hp]
    · rcases hB : stod s with _ | ⟨d0, q0⟩
      · simp [hp]
      · by_cases hq : q0 = s.length <;> by_cases ho : stodOutOfRange d0 = true <;>
          simp [hp, hq, ho]

/-- C4 counterexample: `"True"` case-insensitively equals `"true"`, yet
`InferValueType` yields the verbatim string, not a boolean: the boolean
branch of the code compares only against the exact spellings
`true`/`TRUE`/`false`/`FALSE`. -/
theorem inferValueType_True_not_boolean :
    inferValueType "True" = Toml.str "True" ∧
    (∀ b : Bool, inferValueType "True" ≠ Toml.bool b) := by
  constructor
  · rfl
  · intro b h
    rw [show inferValueType "True" = Toml.str "True" from rfl] at h
    exact Toml.noConfusion h

/-- C4 amended: `InferValueType` assigns, in this exact priority: a boolean
when the string is exactly one of `true`, `TRUE`, `false`, `FALSE` (other
spellings, including mixed case like `True`, are NOT recognized as
booleans); otherwise a 64-bit integer when the entire string parses as one
(`Int64FullParse`); otherwise a double when `std::stod` consumes the entire
string and its value stays within `double` range; otherwise the verbatim
string — in particular when `std::stod`'s conversion goes out of `double`
range (e.g. an overflowing literal such as `1e999`), the thrown
`std::out_of_range` is caught and the string fallback is taken. -/
theorem inferValueType_priority (s : String) :
    ((s = "true" ∨ s = "TRUE") → inferValueType s = Toml.bool true) ∧
    ((s = "false" ∨ s = "FALSE") → inferValueType s = Toml.bool false) ∧
    (∀ v : Int, s ∉ (["true", "TRUE", "false", "FALSE"] : List String) →
        Int64FullParse s v → inferValueType s = Toml.int v) ∧
    (∀ d : DoubleVal, s ∉ (["true", "TRUE", "false", "FALSE"] : List String) →
        (¬ ∃ v : Int, Int64FullParse s v) → stodFull s = some d →
        stodOutOfRange d = false →
        inferValueType s = Toml.float d) ∧
    (s ∉ (["true", "TRUE", "false", "FALSE"] : List String) →
        (¬ ∃ v : Int, Int64FullParse s v) →
        (stodFull s = none ∨ ∃ d, stodFull s = some d ∧ stodOutOfRange d = true) →
        inferValueType s = Toml.str s) := by
  have hbool : ∀ s2 : String, s2 ∉ (["true", "TRUE", "false", "FALSE"] : List String) →
      ((s2 = "true" || s2 = "TRUE") = false ∧ (s2 = "false" || s2 = "FALSE") = false) := by
    intro s2 h
    simp only [List.mem_cons, not_or, List.not_mem_nil] at h
    simp only [Bool.or_eq_false_iff, decide_eq_false_iff_not]
    exact ⟨⟨h.1, h.2.1⟩, ⟨h.2.2.1, h.2.2.2.1⟩⟩
  refine ⟨?_, ?_, ?_, ?_, ?_⟩
  · rintro (h | h) <;> subst h <;> rfl
  · rintro (h | h) <;> subst h <;> rfl
  · intro v hnb hp
    have hs : stollFull s = some v := (stollFull_iff s v).mpr hp
    obtain ⟨hb1, hb2⟩ := hbool s hnb
    rw [inferValueType_eq, hb1, hb2, hs]
    simp
  · intro d hnb hnoint hstod hoor
    have hs : stollFull s = none := by
      rcases hsf : stollFull s with _ | v0
      · rfl
      · exact absurd ⟨v0, (stollFull_iff s v0).mp hsf⟩ hnoint
    obtain ⟨hb1, hb2⟩ := hbool s hnb
    rw [inferValueType_eq, hb1, hb2, hs, hstod]
    simp [hoor]
  · intro hnb hnoint hstod
    have hs : stollFull s = none := by
      rcases hsf : stollFull s with _ | v0
      · rfl
      · exact absurd ⟨v0, (stollFull_iff s v0).mp hsf⟩ hnoint
    obtain ⟨hb1, hb2⟩ := hbool s hnb
    rcases hstod with h | ⟨d, hd, ho⟩
    · rw [inferValueType_eq, hb1, hb2, hs, h]
      simp
    · rw [inferValueType_eq, hb1, hb2, hs, hd]
      simp [ho]

/-- The value `stod` computes for `"1e999"`, in closed form: the whole
5-character string is consumed and the exact value is `10^999`. -/
theorem stodFull_1e999 :
    stodFull "1e999" = some (DoubleVal.finite ((10 : ℚ) ^ (999 : ℕ))) := by
  show some (DoubleVal.finite
      ((if (false : Bool) = true then (-1 : ℚ) else 1)
        * ((digitsToNat (List.takeWhile isDigitChar ['1', 'e', '9', '9', '9']) : ℕ) : ℚ)
        * (10 : ℚ)
          ^ ((1 : ℤ)
              * ((digitsToNat (List.takeWhile isDigitChar ['9', '9', '9']) : ℕ) : ℤ))))
    = some (DoubleVal.finite ((10 : ℚ) ^ (999 : ℕ)))
  rw [show List.takeWhile isDigitChar ['1', 'e', '9', '9', '9'] = ['1'] from rfl,
    show List.takeWhile isDigitChar ['9', '9', '9'] = ['9', '9', '9'] from rfl,
    show digitsToNat ['1'] = 1 from rfl,
    show digitsToNat ['9', '9', '9'] = 999 from rfl]
  norm_num

set_option exponentiation.threshold 4000 in
/-- `10^999` overflows `double`: its magnitude exceeds `2^1024 - 2^970`. -/
theorem stodOutOfRange_1e999 :
    stodOutOfRange (DoubleVal.finite ((10 : ℚ) ^ (999 : ℕ))) = true := by
  have hnum : (((10 : ℚ) ^ (999 : ℕ)).num) = 10 ^ 999 := by
    rw [Rat.num_pow, Rat.num_ofNat]
  have hden : (((10 : ℚ) ^ (999 : ℕ)).den) = 1 := by
    rw [Rat.den_pow, Rat.den_ofNat, one_pow]
  simp only [stodOutOfRange, hnum, hden]
  rw [Bool.or_eq_true]
  left
  rw [decide_eq_true_eq, abs_of_nonneg (by positivity)]
  norm_num

/-- Witness for C4 amended at `"8080"` and `"1e999"`: the former is not a
boolean form and fully parses as the int64 8080, so the inferred value is
the integer 8080; the latter fully parses under the `strtod` grammar but
its value `10^999` overflows `double`, so `std::stod` throws and the
verbatim string is inferred. -/
theorem inferValueType_priority_witness :
    inferValueType "8080" = Toml.int 8080 ∧
    inferValueType "1e999" = Toml.str "1e999" := by
  constructor
  · refine (inferValueType_priority "8080").2.2.1 8080 (by decide)
      ⟨[], [], ['8', '0', '8', '0'], rfl, by simp, Or.inl rfl, by simp, by decide,
        by decide, by decide, by decide⟩
  · refine (inferValueType_priority "1e999").2.2.2.2 (by decide) ?_
      (Or.inr ⟨_, stodFull_1e999, stodOutOfRange_1e999⟩)
    rintro ⟨v, hv⟩
    exact Option.noConfusion
      (((stollFull_iff "1e999" v).mpr hv).symm.trans
        (show stollFull "1e999" = none from rfl))

/-- File-system oracle with a present-but-malformed system file and nothing
else. -/
def fsSysParseErr : String → KVFileRead := fun p =>
  if p = "/etc/myapp/config.toml" then KVFileRead.parseErr else KVFileRead.absent

/-- C6 counterexample: with the system file present but failing to parse
and no user file, `load_xdg_hierarchy` returns `FileNotFound` even though a
candidate file existed — refuting both "file-not-found only when neither
file existed" and "success whenever at least one existed". -/
theorem load_xdg_filenotfound_despite_existing_file :
    (Config.load_xdg_hierarchy fsSysParseErr none none [] "myapp" none).1
        = KVConfigError.FileNotFound ∧
    fsSysParseErr "/etc/myapp/config.toml" ≠ KVFileRead.absent := by
  constructor
  · rfl
  · intro h
    rw [show fsSysParseErr "/etc/myapp/config.toml" = KVFileRead.parseErr from rfl] at h
    exact KVFileRead.noConfusion h

/-- C6 amended: `load_xdg_hierarchy` returns `Success` iff at least one
candidate file was present AND parsed successfully (the system file, or the
resolvable user file), and `FileNotFound` in every other case — including
when a present file failed to parse (that parse error is swallowed). -/
theorem load_xdg_hierarchy_success_iff
    (fs : String → KVFileRead) (xdgEnv homeEnv : Option String)
    (data : List (String × Toml)) (app_name : String)
    (system_config_path : Option String) :
    ((Config.load_xdg_hierarchy fs xdgEnv homeEnv data app_name system_config_path).1
        = KVConfigError.Success ↔
      (∃ t, fs (system_config_path.getD ("/etc/" ++ app_name ++ "/config.toml"))
          = KVFileRead.ok t) ∨
      (∃ up t, xdgUserConfigPath xdgEnv homeEnv app_name = some up ∧
          fs up = KVFileRead.ok t)) ∧
    ((Config.load_xdg_hierarchy fs xdgEnv homeEnv data app_name system_config_path).1
        = KVConfigError.FileNotFound ↔
      ¬ ((∃ t, fs (system_config_path.getD ("/etc/" ++ app_name ++ "/config.toml"))
          = KVFileRead.ok t) ∨
        (∃ up t, xdgUserConfigPath xdgEnv homeEnv app_name = some up ∧
          fs up = KVFileRead.ok t))) := by
  unfold Config.load_xdg_hierarchy
  rcases hsys : fs (system_config_path.getD ("/etc/" ++ app_name ++ "/config.toml")) with
    _ | _ | t1
  · rcases huser : xdgUserConfigPath xdgEnv homeEnv app_name with _ | up
    · simp [hsys, huser]
    · rcases hup : fs up with _ | _ | t2 <;> simp [hsys, huser, hup]
  · rcases huser : xdgUserConfigPath xdgEnv homeEnv app_name with _ | up
    · simp [hsys, huser]
    · rcases hup : fs up with _ | _ | t2 <;> simp [hsys, huser, hup]
  · rcases huser : xdgUserConfigPath xdgEnv homeEnv app_name with _ | up
    · simp [hsys, huser]
    · rcases hup : fs up with _ | _ | t2 <;> simp [hsys, huser, hup]

/-- File-system oracle with only a user file for app2 under /xdg. -/
def fsUserOnly : String → KVFileRead := fun p =>
  if p = "/xdg/app2/config.toml" then KVFileRead.ok [("k", Toml.int 1)]
  else KVFileRead.absent

/-- Witness for C6 amended: only the user file exists (and parses), so the
call succeeds. -/
theorem load_xdg_hierarchy_success_iff_witness :
    (Config.load_xdg_hierarchy fsUserOnly (some "/xdg") none [] "app2" none).1
      = KVConfigError.Success := by
  refine ((load_xdg_hierarchy_success_iff fsUserOnly (some "/xdg") none [] "app2"
      none).1).mpr ?_
  exact Or.inr ⟨"/xdg/app2/config.toml", [("k", Toml.int 1)], rfl, rfl⟩

/-- C8 counterexample: the singleton's `SetOverride` does NOT replace an
existing non-table intermediate node: with the tree `{ a = 5 }`,
`SetOverride("a.b", "1")` logs an error and leaves the tree unchanged,
instead of replacing `a` by a table holding `b = 1`. -/
theorem setOverride_aborts_on_nontable_intermediate :
    (Config.SetOverride
        { initialized := true, app_name := "", config_paths := [],
          data := Toml.table [("a", Toml.int 5)] } "a.b" "1").data
      = Toml.table [("a", Toml.int 5)] ∧
    (Config.SetOverride
        { initialized := true, app_name := "", config_paths := [],
          data := Toml.table [("a", Toml.int 5)] } "a.b" "1").data
      ≠ Toml.table [("a", Toml.table [("b", Toml.int 1)])] := by
  constructor
  · rfl
  · intro h
    rw [show (Config.SetOverride
        { initialized := true, app_name := "", config_paths := [],
          data := Toml.table [("a", Toml.int 5)] } "a.b" "1").data
      = Toml.table [("a", Toml.int 5)] from rfl] at h
    rw [Toml.table.injEq, List.cons.injEq, Prod.mk.injEq] at h
    exact Toml.noConfusion h.1.2

/-- Whether `SetOverride`'s key walk meets an existing non-table node: an
existing non-table intermediate, or a non-table parent of the final key.
(A missing intermediate is created as a fresh empty table, below which the
walk can no longer fail.) -/
def hitsNonTable : Toml → List String → Bool
  | _, [] => false
  | cur, key :: rest =>
      match cur, rest with
      | cur2, [] => !cur2.isTable
      | Toml.table t, _ :: _ =>
          (match lookupKey t key with
           | some c => hitsNonTable c rest
           | none => false)
      | _, _ :: _ => true

theorem setOverrideGo_none_of_hits (v : Toml) :
    ∀ (segs : List String) (cur : Toml), hitsNonTable cur segs = true →
      setOverrideGo v cur segs = none := by
  intro segs
  induction segs with
  | nil => intro cur h; exact absurd h (by simp [hitsNonTable])
  | cons key rest ih =>
      intro cur h
      rcases rest with _ | ⟨r2, rrest⟩
      · cases cur with
        | table t =>
            have h' : (false = true) := h
            exact absurd h' (by simp)
        | empty => rfl
        | bool b => rfl
        | int n => rfl
        | float q => rfl
        | str s2 => rfl
        | arr l => rfl
      · cases cur with
        | table t =>
            have h' : (match lookupKey t key with
                | some c => hitsNonTable c (r2 :: rrest)
                | none => false) = true := h
            rcases hlk : lookupKey t key with _ | c
            · simp [hlk] at h'
            · simp only [hlk] at h'
              have g1 : setOverrideGo v (Toml.table t) (key :: r2 :: rrest)
                  = (match setOverrideGo v
                      (match lookupKey t key with
                       | some c2 => c2
                       | none => Toml.table []) (r2 :: rrest) with
                     | some child2 => some (Toml.table (setKey t key child2))
                     | none => none) := rfl
              rw [g1]
              simp [hlk, ih c h']
        | empty => rfl
        | bool b => rfl
        | int n => rfl
        | float q => rfl
        | str s2 => rfl
        | arr l => rfl

theorem navGo_setAtPath (v : Toml) :
    ∀ (inter : List String) (t : List (String × Toml)) (last : String),
      navGo (setAtPath t inter last v) (inter ++ [last]) = some v := by
  intro inter
  induction inter with
  | nil => intro t last; exact lookupKey_setKey_self t last v
  | cons seg rest ih =>
      intro t last
      rcases rest with _ | ⟨r2, rrest⟩
      · have e2 : navGo (setAtPath t [seg] last v) ([seg] ++ [last])
            = (match lookupKey (setAtPath t [seg] last v) seg with
               | some (Toml.table t2) => navGo t2 [last]
               | _ => none) := rfl
        have e3 : lookupKey (setAtPath t [seg] last v) seg
            = some (Toml.table (setAtPath
                (match lookupKey t seg with
                 | some (Toml.table t2) => t2
                 | _ => []) [] last v)) := lookupKey_setKey_self t seg _
        rw [e2, e3]
        exact ih _ _
      · have e2 : navGo (setAtPath t (seg :: r2 :: rrest) last v)
              ((seg :: r2 :: rrest) ++ [last])
            = (match lookupKey (setAtPath t (seg :: r2 :: rrest) last v) seg with
               | some (Toml.table t2) => navGo t2 ((r2 :: rrest) ++ [last])
               | _ => none) := rfl
        have e3 : lookupKey (setAtPath t (seg :: r2 :: rrest) last v) seg
            = some (Toml.table (setAtPath
                (match lookupKey t seg with
                 | some (Toml.table t2) => t2
                 | _ => []) (r2 :: rrest) last v)) := lookupKey_setKey_self t seg _
        rw [e2, e3]
        exact ih _ _

/-- C8 amended: only the standalone object's setters replace a non-table
intermediate with an empty table and proceed to assign at the resolved
path; after `set_string` the value is readable back at the same key,
whatever stood there before, for every key that is nonempty and does not
end in `.` — a key ending in `.` (or the empty key) stores the value under
its empty last segment, but every read of such a key returns nothing, since
`navigate_to_node`'s `getline` loop never reaches an eof-terminated
segment.  The singleton's `SetOverride` instead logs an error and leaves
the tree unmodified whenever its walk meets an existing non-table node
(only a non-table *root* is replaced by an empty table). -/
theorem setters_nontable_intermediate_behavior :
    (∀ (data : List (String × Toml)) (key value : String),
        key.data ≠ [] → key.data.getLast? ≠ some '.' →
        Config.get_string (Config.set_string data key value) key = some value) ∧
    (∀ (data : List (String × Toml)) (key : String),
        key.data = [] ∨ key.data.getLast? = some '.' →
        Config.get_string data key = none) ∧
    (∀ (st : ConfigState) (path value : String),
        st.data.isTable = true →
        hitsNonTable st.data (splitPath path) = true →
        (Config.SetOverride st path value).data = st.data) := by
  refine ⟨?_, ?_, ?_⟩
  · intro data key value h1 h2
    have hkey : (splitPath key).dropLast ++ [get_last_segment key] = splitPath key :=
      List.dropLast_append_getLast (splitPath_ne_nil key)
    have hnav := navGo_setAtPath (Toml.str value) (splitPath key).dropLast data
      (get_last_segment key)
    rw [hkey] at hnav
    rw [Config.get_string, Config.set_string, navigate_to_node,
      if_neg (not_or.mpr ⟨h1, h2⟩), hnav]
  · intro data key h
    rw [Config.get_string, navigate_to_node, if_pos h]
  · intro st path value hTable hHits
    rw [Config.SetOverride]
    simp only [hTable, if_true]
    rw [setOverrideGo_none_of_hits (inferValueType value) (splitPath path) st.data hHits]

/-- Witness for C8 amended on the tree `{ a = 5 }`: with the well-formed key
`a.b` the standalone setter replaces `a` and the value reads back; with the
dot-terminated key `a.` a freshly written value is not readable back; and
the singleton's `SetOverride` on `a.b` leaves the tree as it was. -/
theorem setters_nontable_intermediate_behavior_witness :
    Config.get_string (Config.set_string [("a", Toml.int 5)] "a.b" "x") "a.b"
      = some "x" ∧
    Config.get_string (Config.set_string [("a", Toml.int 5)] "a." "x") "a."
      = none ∧
    (Config.SetOverride
        { initialized := true, app_name := "", config_paths := [],
          data := Toml.table [("a", Toml.int 5)] } "a.b" "1").data
      = Toml.table [("a", Toml.int 5)] :=
  ⟨setters_nontable_intermediate_behavior.1 [("a", Toml.int 5)] "a.b" "x"
      (by decide) (by decide),
    setters_nontable_intermediate_behavior.2.1
      (Config.set_string [("a", Toml.int 5)] "a." "x") "a." (Or.inr (by decide)),
    setters_nontable_intermediate_behavior.2.2
      { initialized := true, app_name := "", config_paths := [],
        data := Toml.table [("a", Toml.int 5)] } "a.b" "1" rfl rfl⟩

/-- File-system oracle for the override/reload scenario: a single config
file `/tmp/test_config.toml` containing `[test] port = 1000`; every other
path is absent. -/
def fsOverrideTest : String → FileRead := fun p =>
  if p = "/tmp/test_config.toml"
  then FileRead.ok (Toml.table [("test", Toml.table [("port", Toml.int 1000)])])
  else FileRead.absent

/-- C1: contrary to the claim, `Reload` does NOT re-apply overrides set via
`SetOverride`.  After `Load`-ing a file with `test.port = 1000` and
overriding `test.port` to `2000` (which the tree does reflect), a `Reload`
succeeds but yields `test.port = 1000` again: `Reload` merely re-runs
`Load`/`Initialize` over the files, and `SetOverride` records nothing that
`Reload` could re-apply (the cited implementation keeps no override map). -/
theorem reload_drops_override :
    (Config.Load fsOverrideTest initialConfigState "/tmp/test_config.toml").1
      = ConfigError.Success ∧
    inferValueType "2000" = Toml.int 2000 ∧
    Config.GetSection
        (Config.SetOverride
          (Config.Load fsOverrideTest initialConfigState "/tmp/test_config.toml").2
          "test.port" "2000") "test"
      = some (Toml.table [("port", Toml.int 2000)]) ∧
    (Config.Reload fsOverrideTest "/xdg"
        (Config.SetOverride
          (Config.Load fsOverrideTest initialConfigState "/tmp/test_config.toml").2
          "test.port" "2000")).1
      = ConfigError.Success ∧
    Config.GetSection
        (Config.Reload fsOverrideTest "/xdg"
          (Config.SetOverride
            (Config.Load fsOverrideTest initialConfigState "/tmp/test_config.toml").2
            "test.port" "2000")).2 "test"
      = some (Toml.table [("port", Toml.int 1000)]) :=
  ⟨rfl, rfl, rfl, rfl, rfl⟩

/-- File-system oracle for a first, successful XDG initialization of the
application `test-app`: no system-wide file, and a user file
`/xdg/test-app/config.toml` containing `[test] value = 1`. -/
def fsInitOk : String → FileRead := fun p =>
  if p = "/xdg/test-app/config.toml"
  then FileRead.ok (Toml.table [("test", Toml.table [("value", Toml.int 1)])])
  else FileRead.absent

/-- The same file system after the user file has been overwritten with
syntactically invalid TOML. -/
def fsInitBad : String → FileRead := fun p =>
  if p = "/xdg/test-app/config.toml" then FileRead.syntaxErr else FileRead.absent

/-- C2: contrary to the claim, a failed `Reload` does NOT leave the
previously loaded tree untouched.  `Reload` delegates to `Initialize`,
which resets `m_data` to a default-constructed value *before* parsing; when
the user file has become invalid the reload returns `ParseError` with the
tree already cleared, so the previously loaded `[test] value = 1` is
lost. -/
theorem reload_failure_clobbers_tree :
    (Config.Initialize fsInitOk "/xdg" initialConfigState "test-app").1
      = ConfigError.Success ∧
    (Config.Initialize fsInitOk "/xdg" initialConfigState "test-app").2.data
      = Toml.table [("test", Toml.table [("value", Toml.int 1)])] ∧
    (Config.Reload fsInitBad "/xdg"
        (Config.Initialize fsInitOk "/xdg" initialConfigState "test-app").2).1
      = ConfigError.ParseError ∧
    (Config.Reload fsInitBad "/xdg"
        (Config.Initialize fsInitOk "/xdg" initialConfigState "test-app").2).2.data
      = Toml.empty ∧
    Toml.empty ≠ Toml.table [("test", Toml.table [("value", Toml.int 1)])] :=
  ⟨rfl, rfl, rfl, rfl, fun h => Toml.noConfusion h⟩
